import Mathlib

/-!
# TradeOrFadeGame (src/script.js): market-data simulator and round state machine

A shallow embedding of the class `TradeOrFadeGame`.

* Prices are taken in an arbitrary linearly ordered field `α` (the reals for the
  statements, the rationals for evaluation); counters (`score`, `lives`, `level`,
  `timer`, `highScore`) are integers.
* The ambient `Math.random` is a stream `random : ℕ → α` read through the cursor
  `rng` kept in the state; `randn` (Box–Muller over `Math.log`, `Math.cos`,
  `Math.sqrt`) and `Math.exp` are supplied by the environment `Env`.
* The browser is represented by four pieces of state: the armed interval handle
  with its captured counter `left` (`timerInterval`), the number of queued
  `setTimeout(() => this.startNewRound(), 600)` callbacks (`pending`), the
  `disabled` flag of the two buttons (`buttonsDisabled`) and the `localStorage`
  entry `tof_highScore` (`storage`, with the log `writes` of every `setItem`).
* Audio, canvas drawing and text updates of DOM nodes carry no game state and
  are left out.
-/

namespace TradeOrFade

/-- The two labels `'up'` and `'down'`. -/
inductive Dir where
  | up
  | down
  deriving DecidableEq, Repr

/-- One element of `this.candles`: `{ open, high, low, close, vol }`. -/
structure Candle (α : Type) where
  open_ : α
  high : α
  low : α
  close : α
  vol : α
  deriving DecidableEq, Repr

/-- The sources of values that the class reads from its surroundings:
`Math.exp`, the stream of `Math.random()` results, and `this.randn()` (lines
389-395) as a function from the stream cursor to the deviate and the advanced
cursor. The body of `randn` is not unfolded: its two redraw loops end at the
first non-zero draw, and every property below holds for whatever value it
returns. -/
structure Env (α : Type) where
  exp : α → α
  random : Nat → α
  randn : Nat → α × Nat

/-- The fields of a `TradeOrFadeGame` object together with the browser state it
interacts with. -/
structure Game (α : Type) where
  score : Int
  highScore : Int
  newRecordAchieved : Bool
  lives : Int
  level : Int
  timer : Int
  gameActive : Bool
  currentDirection : Option Dir
  /-- Holds `some left` while the interval created by `startTimer` is armed. -/
  timerInterval : Option Int
  isWaitingForNextRound : Bool
  candles : List (Candle α)
  ema20 : List α
  /-- The flag `disabled` of `btnUp` and `btnDown`. -/
  buttonsDisabled : Bool
  /-- The entry `tof_highScore` of `localStorage`. -/
  storage : Option Int
  /-- Every value passed to `localStorage.setItem`, oldest first. -/
  writes : List Int
  /-- Queued `setTimeout(() => this.startNewRound(), 600)` callbacks. -/
  pending : Nat
  /-- Number of `Math.random()` results consumed so far. -/
  rng : Nat

variable {α : Type}

/-! ## High score -/

/-- Method `loadHighScore` (lines 119-123). -/
def loadHighScore (s : Game α) : Game α :=
  { s with highScore := match s.storage with
                        | some v => v
                        | none => 0 }

/-- Method `maybeUpdateHighScore` (lines 125-133). -/
def maybeUpdateHighScore (s : Game α) : Game α :=
  if s.score > s.highScore then
    { s with highScore := s.score
             storage := some s.score
             writes := s.writes ++ [s.score]
             newRecordAchieved := true }
  else s

/-! ## Data generation -/

/-- One iteration of the loop body of `generateCandles` (lines 180-204): from
`prevClose` and the cursor into the random stream to the bar pushed and the
cursor after the six uniform draws. -/
def candleStep [LinearOrderedField α] (E : Env α) (prevClose : α) (n : Nat) : Candle α × Nat :=
  let mu : α := 0.0005
  let sigma : α := 0.02
  let open_ := prevClose
  let zn := E.randn n
  let z := zn.1
  let n1 := zn.2
  let ret := E.exp ((mu - 0.5 * sigma * sigma) + sigma * z)
  let close0 := open_ * ret
  let maxMove : α := 0.035
  let clampFactor := max (-maxMove) (min maxMove ((close0 - open_) / open_))
  let close := open_ * (1 + clampFactor)
  let body := abs (close - open_)
  let wickAmp := body * (0.6 + E.random n1 * 1.2) + open_ * (0.001 + E.random (n1 + 1) * 0.004)
  let high := max open_ close + wickAmp * (0.4 + E.random (n1 + 2) * 0.8)
  let low := min open_ close - wickAmp * (0.4 + E.random (n1 + 3) * 0.8)
  let volBase := 1000 + E.random (n1 + 4) * 2000
  let vol := volBase * (0.7 + (body / open_) * 180 + E.random (n1 + 5) * 0.6)
  ({ open_ := open_, high := high, low := low, close := close, vol := vol }, n1 + 6)

/-- The `for` loop of `generateCandles` (lines 179-205) with `k` iterations left. -/
def candleLoop [LinearOrderedField α] (E : Env α) : Nat → α → Nat → List (Candle α) × Nat
  | 0, _, n => ([], n)
  | k + 1, prevClose, n =>
    let cn := candleStep E prevClose n
    let rest := candleLoop E k cn.1.close cn.2
    (cn.1 :: rest.1, rest.2)

/-- Method `generateCandles(count)` (lines 171-208). -/
def generateCandles [LinearOrderedField α] (E : Env α) (count : Int) (s : Game α) : Game α :=
  let start := 100 + E.random s.rng * 20
  let r := candleLoop E count.toNat start (s.rng + 1)
  { s with candles := r.1, rng := r.2 }

/-- The `for` loop of `computeEMA` (lines 216-224) at index `i` with the
current value of `prev` (`none` for `null`, which JavaScript reads as `0` in
arithmetic). -/
def emaLoop [LinearOrderedField α] (k : α) : Nat → Option α → List (Candle α) → List α
  | _, _, [] => []
  | i, prev, c :: cs =>
    let price := c.close
    let prev1 := if i = 0 then price else price * k + prev.getD 0 * (1 - k)
    prev1 :: emaLoop k (i + 1) (some prev1) cs

/-- Method `computeEMA(period)` (lines 211-226). -/
def computeEMA [LinearOrderedField α] (period : Int) (s : Game α) : Game α :=
  let k : α := 2 / ((period : α) + 1)
  { s with ema20 := emaLoop k 0 none s.candles }

/-- Method `setDirectionFromCandles` (lines 228-236). -/
def setDirectionFromCandles [LinearOrderedField α] (E : Env α) (s : Game α) : Game α :=
  match s.candles with
  | [] =>
    { s with currentDirection := some (if E.random s.rng < 0.5 then Dir.up else Dir.down)
             rng := s.rng + 1 }
  | c :: cs =>
    let first := c.open_
    let last := ((c :: cs).getLast (List.cons_ne_nil c cs)).close
    { s with currentDirection := some (if last ≥ first then Dir.up else Dir.down) }

/-! ## Round flow -/

/-- Method `startTimer` (lines 397-409): cancels the previous interval and arms a new
one whose counter `left` starts at `this.timer`. -/
def startTimer (s : Game α) : Game α :=
  { s with timerInterval := some s.timer }

/-- Method `enableButtons` (lines 411-414). -/
def enableButtons (s : Game α) : Game α :=
  { s with buttonsDisabled := false }

/-- Method `disableButtons` (lines 415-418). -/
def disableButtons (s : Game α) : Game α :=
  { s with buttonsDisabled := true }

/-- Method `startNewRound` (lines 146-167). -/
def startNewRound [LinearOrderedField α] (E : Env α) (s : Game α) : Game α :=
  if !s.gameActive then s
  else
    let s1 := { s with isWaitingForNextRound := false }
    let d := Int.fdiv s1.score 50
    let s2 := { s1 with timer := max 1 (3 - d) }
    let s3 := generateCandles E 48 s2
    let s4 := computeEMA 20 s3
    let s5 := setDirectionFromCandles E s4
    enableButtons (startTimer s5)

/-- Method `queueNextRound` (lines 446-450). -/
def queueNextRound (s : Game α) : Game α :=
  disableButtons { s with isWaitingForNextRound := true, pending := s.pending + 1 }

/-- Method `endGame` (lines 475-488). -/
def endGame (s : Game α) : Game α :=
  maybeUpdateHighScore (disableButtons { s with gameActive := false })

/-- Method `handleCorrect` (lines 427-435). -/
def handleCorrect (s : Game α) : Game α :=
  let s1 := { s with score := s.score + 10 }
  let s2 := if Int.tmod s1.score 50 = 0 then { s1 with level := s1.level + 1 } else s1
  queueNextRound (maybeUpdateHighScore s2)

/-- Method `handleWrong` (lines 437-444). -/
def handleWrong (s : Game α) : Game α :=
  let s1 := { s with lives := s.lives - 1 }
  if s1.lives ≤ 0 then endGame s1 else queueNextRound s1

/-- Method `makeChoice(choice)` (lines 420-425). -/
def makeChoice (choice : Dir) (s : Game α) : Game α :=
  if s.isWaitingForNextRound then s
  else
    let s1 := { s with timerInterval := none }
    let correct := (some choice == s1.currentDirection)
    if correct then handleCorrect s1 else handleWrong s1

/-- Method `restartGame` (lines 490-502). -/
def restartGame [LinearOrderedField α] (E : Env α) (s : Game α) : Game α :=
  startNewRound E { s with score := 0, lives := 3, level := 1, timer := 3,
                           gameActive := true, newRecordAchieved := false }

/-- The object before the constructor body runs its calls: the field
initialisers of lines 4-21 over a browser whose storage holds `saved`. -/
def initial (saved : Option Int) : Game α :=
  { score := 0, highScore := 0, newRecordAchieved := false, lives := 3, level := 1,
    timer := 3, gameActive := true, currentDirection := none, timerInterval := none,
    isWaitingForNextRound := false, candles := [], ema20 := [],
    buttonsDisabled := false, storage := saved, writes := [], pending := 0, rng := 0 }

/-- The constructor (lines 2-43): a fresh game with its first round started. -/
def newGame [LinearOrderedField α] (E : Env α) (saved : Option Int) : Game α :=
  startNewRound E (loadHighScore (initial saved))

/-! ## Browser callbacks -/

/-- The interval callback installed by `startTimer` (lines 401-408). It runs
only while the interval is armed. -/
def timerTick (s : Game α) : Game α :=
  match s.timerInterval with
  | none => s
  | some left =>
    let left1 := left - 1
    if left1 ≤ 0 then handleWrong { s with timerInterval := none }
    else { s with timerInterval := some left1 }

/-- The timeout callback queued by `queueNextRound` (line 449). -/
def nextRoundTimeout [LinearOrderedField α] (E : Env α) (s : Game α) : Game α :=
  match s.pending with
  | 0 => s
  | p + 1 => startNewRound E { s with pending := p }

/-- The click listeners of `bindEvents` (lines 109-110); a disabled button
dispatches no click. -/
def click (choice : Dir) (s : Game α) : Game α :=
  if s.buttonsDisabled then s else makeChoice choice s

/-- What can happen to a game between its construction and a restart. -/
inductive Event where
  | choice (d : Dir)
  | click (d : Dir)
  | tick
  | nextRound
  | correct
  | wrong
  deriving DecidableEq, Repr

/-- One event applied to the game. -/
def step [LinearOrderedField α] (E : Env α) (e : Event) (s : Game α) : Game α :=
  match e with
  | Event.choice d => makeChoice d s
  | Event.click d => click d s
  | Event.tick => timerTick s
  | Event.nextRound => nextRoundTimeout E s
  | Event.correct => handleCorrect s
  | Event.wrong => handleWrong s

/-- A finite sequence of events, applied in order. -/
def run [LinearOrderedField α] (E : Env α) : List Event → Game α → Game α
  | [], s => s
  | e :: es, s => run E es (step E e s)

/-- The events of a single round: decisions, clicks and timer ticks, but no
queued round start and no direct handler call. -/
def Event.inRound : Event → Bool
  | Event.choice _ => true
  | Event.click _ => true
  | Event.tick => true
  | _ => false

/-- The events the browser delivers during a round: clicks on the two buttons
and timer ticks. -/
def Event.isCallback : Event → Bool
  | Event.click _ => true
  | Event.tick => true
  | _ => false

/-- A label that differs from `currentDirection`. -/
def wrongChoice (s : Game α) : Dir :=
  match s.currentDirection with
  | some Dir.up => Dir.down
  | _ => Dir.up

/-- The two ways a round reaches `handleWrong`. -/
inductive Loss where
  | mismatch
  | timeout
  deriving DecidableEq, Repr

/-- A lost round: a mismatching `makeChoice`, or the interval callback running
once per second of the countdown with no decision made. -/
def lose (w : Loss) (s : Game α) : Game α :=
  match w with
  | Loss.mismatch => makeChoice (wrongChoice s) s
  | Loss.timeout => timerTick^[s.timer.toNat] s

/-- A fresh game followed by three lost rounds, the queued `startNewRound`
running after the first and after the second. -/
def threeLosses [LinearOrderedField α] (E : Env α) (saved : Option Int) (w1 w2 w3 : Loss) :
    Game α :=
  lose w3 (nextRoundTimeout E (lose w2 (nextRoundTimeout E (lose w1 (newGame E saved)))))

/-- A round that has just been started: the game is active, no resolution is
pending, the countdown is armed at `timer >= 1`, the buttons are enabled and no
round start is queued. -/
def RoundOpen (s : Game α) : Prop :=
  s.gameActive = true ∧ s.isWaitingForNextRound = false ∧ s.timerInterval = some s.timer ∧
  1 ≤ s.timer ∧ s.buttonsDisabled = false ∧ s.pending = 0

/-- The footprint of one transition from `s` to `t` on the score and the best
score: the score stays or grows by 10; the best score and the storage log either
stay as they are, or record one write of a score above the former best. -/
def ScoreStep (s t : Game α) : Prop :=
  (t.score = s.score ∨ t.score = s.score + 10) ∧
  (((t.score ≤ s.highScore ∨ t.score = s.score) ∧
      t.highScore = s.highScore ∧ t.writes = s.writes) ∨
    (s.highScore < t.score ∧ t.highScore = t.score ∧ t.writes = s.writes ++ [t.score]))

/-- A rational environment for evaluation: a constant stand-in for `Math.exp`,
every uniform draw `1/2`, every deviate `0` after two draws. -/
def sampleEnv : Env ℚ :=
  { exp := fun _ => 1, random := fun _ => 1 / 2, randn := fun n => (0, n + 2) }

/-- A round in progress over the rationals: a two-bar path with its 20-period
series, `currentDirection = 'up'`, the countdown armed. -/
def sampleRound : Game ℚ :=
  { score := 0, highScore := 0, newRecordAchieved := false, lives := 3, level := 1,
    timer := 3, gameActive := true, currentDirection := some Dir.up,
    timerInterval := some 3, isWaitingForNextRound := false,
    candles := [{ open_ := 100, high := 101, low := 99, close := 100, vol := 1000 },
                { open_ := 100, high := 103, low := 99, close := 102, vol := 1500 }],
    ema20 := [100, 2104 / 21],
    buttonsDisabled := false, storage := none, writes := [], pending := 0, rng := 0 }

/-! ## Frame lemmas: what each method leaves alone -/

theorem generateCandles_frame [LinearOrderedField α] (E : Env α) (count : Int) (s : Game α) :
    (generateCandles E count s).score = s.score ∧
    (generateCandles E count s).highScore = s.highScore ∧
    (generateCandles E count s).lives = s.lives ∧
    (generateCandles E count s).level = s.level ∧
    (generateCandles E count s).timer = s.timer ∧
    (generateCandles E count s).gameActive = s.gameActive ∧
    (generateCandles E count s).writes = s.writes ∧
    (generateCandles E count s).ema20 = s.ema20 := by
  simp [generateCandles]

theorem computeEMA_frame [LinearOrderedField α] (period : Int) (s : Game α) :
    (computeEMA period s).score = s.score ∧
    (computeEMA period s).highScore = s.highScore ∧
    (computeEMA period s).lives = s.lives ∧
    (computeEMA period s).level = s.level ∧
    (computeEMA period s).timer = s.timer ∧
    (computeEMA period s).gameActive = s.gameActive ∧
    (computeEMA period s).writes = s.writes ∧
    (computeEMA period s).candles = s.candles ∧
    (computeEMA period s).rng = s.rng := by
  simp [computeEMA]

theorem setDirectionFromCandles_frame [LinearOrderedField α] (E : Env α) (s : Game α) :
    (setDirectionFromCandles E s).score = s.score ∧
    (setDirectionFromCandles E s).highScore = s.highScore ∧
    (setDirectionFromCandles E s).lives = s.lives ∧
    (setDirectionFromCandles E s).level = s.level ∧
    (setDirectionFromCandles E s).timer = s.timer ∧
    (setDirectionFromCandles E s).gameActive = s.gameActive ∧
    (setDirectionFromCandles E s).writes = s.writes ∧
    (setDirectionFromCandles E s).candles = s.candles ∧
    (setDirectionFromCandles E s).ema20 = s.ema20 := by
  unfold setDirectionFromCandles
  split <;> simp_all

theorem startNewRound_inactive [LinearOrderedField α] (E : Env α) (s : Game α) (h : s.gameActive = false) :
    startNewRound E s = s := by
  simp [startNewRound, h]

theorem startNewRound_frame [LinearOrderedField α] (E : Env α) (s : Game α) :
    (startNewRound E s).score = s.score ∧
    (startNewRound E s).highScore = s.highScore ∧
    (startNewRound E s).lives = s.lives ∧
    (startNewRound E s).level = s.level ∧
    (startNewRound E s).gameActive = s.gameActive ∧
    (startNewRound E s).writes = s.writes := by
  unfold startNewRound
  split
  · simp
  · simp only [enableButtons, startTimer]
    obtain ⟨a1, a2, a3, a4, -, a6, a7, -, -⟩ := setDirectionFromCandles_frame E
      (computeEMA 20 (generateCandles E 48
        { { s with isWaitingForNextRound := false } with
          timer := max 1 (3 - Int.fdiv s.score 50) }))
    obtain ⟨b1, b2, b3, b4, -, b6, b7, -, -⟩ := @computeEMA_frame α _ 20
      (generateCandles E 48
        { { s with isWaitingForNextRound := false } with
          timer := max 1 (3 - Int.fdiv s.score 50) })
    obtain ⟨c1, c2, c3, c4, -, c6, c7, -⟩ := generateCandles_frame E 48
        { { s with isWaitingForNextRound := false } with
          timer := max 1 (3 - Int.fdiv s.score 50) }
    simp only [a1, a2, a3, a4, a6, a7, b1, b2, b3, b4, b6, b7, c1, c2, c3, c4, c6, c7]
    simp

theorem startNewRound_timer [LinearOrderedField α] (E : Env α) (s : Game α) (h : s.gameActive = true) :
    (startNewRound E s).timer = max 1 (3 - Int.fdiv s.score 50) := by
  unfold startNewRound
  simp only [h, Bool.not_true, Bool.false_eq_true, if_false, enableButtons, startTimer]
  rw [(setDirectionFromCandles_frame E _).2.2.2.2.1, (computeEMA_frame 20 _).2.2.2.2.1,
    (generateCandles_frame E 48 _).2.2.2.2.1]

/-! ## Level-up rule -/

/-- C2, counterexample: with `score = 49` the scores 49 and 59 lie on opposite
sides of 50, a Correct outcome takes the score to 59, and `level` stays put. -/
theorem handleCorrect_level_49 :
    Int.fdiv ((49 : Int) + 10) 50 = Int.fdiv 49 50 + 1 ∧
    (handleCorrect { sampleRound with score := 49 }).score = 59 ∧
    (handleCorrect { sampleRound with score := 49 }).level
      = ({ sampleRound with score := 49 } : Game ℚ).level ∧
    (handleCorrect { sampleRound with score := 49 }).level
      ≠ ({ sampleRound with score := 49 } : Game ℚ).level + 1 := by
  decide

theorem handleCorrect_score (s : Game α) : (handleCorrect s).score = s.score + 10 := by
  unfold handleCorrect queueNextRound disableButtons maybeUpdateHighScore
  simp only
  split <;> split <;> simp

theorem handleCorrect_level_eq (s : Game α) :
    (handleCorrect s).level
      = if Int.tmod (s.score + 10) 50 = 0 then s.level + 1 else s.level := by
  unfold handleCorrect queueNextRound disableButtons maybeUpdateHighScore
  simp only
  split <;> split <;> simp_all

/-- C2, amended: a Correct outcome adds 10 to `score` and increments `level` by
exactly 1 when the new score is an exact multiple of 50, and leaves `level`
unchanged otherwise; for a score that is a multiple of 10 this is the same as
`score` and `score + 10` lying on opposite sides of a multiple of 50. -/
theorem handleCorrect_level (s : Game α) :
    (handleCorrect s).score = s.score + 10 ∧
    (Int.tmod (s.score + 10) 50 = 0 → (handleCorrect s).level = s.level + 1) ∧
    (Int.tmod (s.score + 10) 50 ≠ 0 → (handleCorrect s).level = s.level) ∧
    (Int.tmod s.score 10 = 0 → Int.fdiv (s.score + 10) 50 = Int.fdiv s.score 50 + 1 →
      (handleCorrect s).level = s.level + 1) := by
  refine ⟨handleCorrect_score s, ?_, ?_, ?_⟩
  · intro h
    rw [handleCorrect_level_eq, if_pos h]
  · intro h
    rw [handleCorrect_level_eq, if_neg h]
  · intro h10 hcross
    rw [handleCorrect_level_eq, if_pos]
    rw [Int.fdiv_eq_ediv _ (by decide), Int.fdiv_eq_ediv _ (by decide)] at hcross
    have h10e : s.score % 10 = 0 := Int.emod_eq_zero_of_dvd (Int.dvd_of_tmod_eq_zero h10)
    apply Int.tmod_eq_zero_of_dvd
    apply Int.dvd_of_emod_eq_zero
    omega

/-- C2, amended, at concrete inputs: from 40 the level goes up (the new score 50
is a multiple of 50), from 49 it does not. -/
theorem handleCorrect_level_witness :
    (handleCorrect { sampleRound with score := 40 }).level = 2 ∧
    (handleCorrect { sampleRound with score := 49 }).level = 1 :=
  ⟨(handleCorrect_level { sampleRound with score := 40 }).2.2.2 (by decide) (by decide),
   (handleCorrect_level { sampleRound with score := 49 }).2.2.1 (by decide)⟩

/-! ## Countdown length -/

theorem startNewRound_iterate_frame [LinearOrderedField α] (E : Env α) (n : Nat) (s : Game α) :
    ((startNewRound E)^[n] s).score = s.score ∧
    ((startNewRound E)^[n] s).gameActive = s.gameActive := by
  induction n generalizing s with
  | zero => simp
  | succ n ih =>
    rw [Function.iterate_succ_apply]
    obtain ⟨h1, h2⟩ := ih (startNewRound E s)
    obtain ⟨f1, -, -, -, f5, -⟩ := startNewRound_frame E s
    exact ⟨h1.trans f1, h2.trans f5⟩

/-- C5: on an active game with a non-negative score `startNewRound` sets
`timer = max(1, 3 - floor(score/50))` whatever the random sources are; the value
is 1, 2 or 3, does not grow with the score, and is 1 from score 100 on, in every
one of any number of consecutive rounds. -/
theorem startNewRound_timer_difficulty [LinearOrderedField α] (E : Env α) (s : Game α)
    (hact : s.gameActive = true) (hs : 0 ≤ s.score) :
    (startNewRound E s).timer = max 1 (3 - Int.fdiv s.score 50) ∧
    (∀ E2 : Env α, (startNewRound E2 s).timer = (startNewRound E s).timer) ∧
    ((startNewRound E s).timer = 1 ∨ (startNewRound E s).timer = 2 ∨
      (startNewRound E s).timer = 3) ∧
    (∀ (E2 : Env α) (s2 : Game α), s2.gameActive = true → s.score ≤ s2.score →
      (startNewRound E2 s2).timer ≤ (startNewRound E s).timer) ∧
    (100 ≤ s.score → ∀ n : Nat, ((startNewRound E)^[n + 1] s).timer = 1) := by
  have hfd : ∀ x : Int, Int.fdiv x 50 = x / 50 := fun x => Int.fdiv_eq_ediv x (by decide)
  refine ⟨startNewRound_timer E s hact, ?_, ?_, ?_, ?_⟩
  · intro E2
    rw [startNewRound_timer E2 s hact, startNewRound_timer E s hact]
  · rw [startNewRound_timer E s hact, hfd]
    omega
  · intro E2 s2 hact2 hle
    rw [startNewRound_timer E2 s2 hact2, startNewRound_timer E s hact, hfd, hfd]
    omega
  · intro h100 n
    rw [Function.iterate_succ_apply']
    obtain ⟨h1, h2⟩ := startNewRound_iterate_frame E n s
    rw [startNewRound_timer E _ (h2.trans hact), h1, hfd]
    omega

/-- C5 at a concrete input: an active game with score 150 gets `timer = 1` in
each of 1000 consecutive rounds. -/
theorem startNewRound_timer_difficulty_witness :
    ((startNewRound sampleEnv)^[999 + 1] { sampleRound with score := 150 }).timer = 1 :=
  (startNewRound_timer_difficulty sampleEnv { sampleRound with score := 150 }
    (by decide) (by decide)).2.2.2.2 (by decide) 999

/-! ## Trend indicator -/

theorem emaLoop_length [LinearOrderedField α] (k : α) (cs : List (Candle α)) (i : Nat)
    (prev : Option α) : (emaLoop k i prev cs).length = cs.length := by
  induction cs generalizing i prev with
  | nil => simp [emaLoop]
  | cons c cs ih => simp [emaLoop, ih]

theorem emaLoop_recurrence [LinearOrderedField α] (k : α) (cs : List (Candle α)) (j : Nat)
    (prev : Option α) (i : Nat) (h : i + 1 < cs.length) :
    ∃ v c, (emaLoop k j prev cs)[i]? = some v ∧ cs[i + 1]? = some c ∧
      (emaLoop k j prev cs)[i + 1]? = some (c.close * k + v * (1 - k)) := by
  induction cs generalizing j prev i with
  | nil => simp at h
  | cons c0 cs ih =>
    cases i with
    | zero =>
      cases cs with
      | nil => simp at h
      | cons c1 cs =>
        exact ⟨if j = 0 then c0.close else c0.close * k + prev.getD 0 * (1 - k), c1,
          by simp [emaLoop], by simp, by simp [emaLoop]⟩
    | succ i =>
      have h2 : i + 1 < cs.length := by simpa using h
      obtain ⟨v, c, hv, hc, hn⟩ := ih (j + 1)
        (some (if j = 0 then c0.close else c0.close * k + prev.getD 0 * (1 - k))) i h2
      exact ⟨v, c, by simpa [emaLoop] using hv, by simpa using hc, by simpa [emaLoop] using hn⟩

/-- C8: for a positive period, with `k = 2/(period+1)`, `computeEMA` yields a
series as long as the path, whose element 0 is the first close and whose element
`i + 1` is `close[i+1]*k + value[i]*(1-k)`; the path is left unchanged. -/
theorem computeEMA_series [LinearOrderedField α] (period : Int) (hp : 0 < period)
    (s : Game α) :
    (computeEMA period s).ema20.length = s.candles.length ∧
    (computeEMA period s).ema20[0]? = (s.candles[0]?).map Candle.close ∧
    (∀ i : Nat, i + 1 < s.candles.length →
      ∃ v c, (computeEMA period s).ema20[i]? = some v ∧ s.candles[i + 1]? = some c ∧
        (computeEMA period s).ema20[i + 1]?
          = some (c.close * (2 / ((period : α) + 1)) + v * (1 - 2 / ((period : α) + 1)))) ∧
    (computeEMA period s).candles = s.candles := by
  have _ := hp
  refine ⟨?_, ?_, ?_, ?_⟩
  · simp [computeEMA, emaLoop_length]
  · cases hc : s.candles with
    | nil => simp [computeEMA, hc, emaLoop]
    | cons c cs => simp [computeEMA, hc, emaLoop]
  · intro i hi
    exact emaLoop_recurrence _ s.candles 0 none i hi
  · simp [computeEMA]

/-- C8 at a concrete input: the 20-period series of the two-bar path with closes
100 and 102 has second element `102*(2/21) + 100*(1 - 2/21)`. -/
theorem computeEMA_series_witness :
    (0 : Int) < 20 ∧ (computeEMA 20 sampleRound).ema20.length = 2 ∧
    (computeEMA 20 sampleRound).ema20[0]? = some 100 ∧
    ∃ v c, (computeEMA 20 sampleRound).ema20[0]? = some v ∧
      sampleRound.candles[0 + 1]? = some c ∧
      (computeEMA 20 sampleRound).ema20[0 + 1]?
        = some (c.close * (2 / (((20 : Int) : ℚ) + 1)) + v * (1 - 2 / (((20 : Int) : ℚ) + 1))) :=
  ⟨by decide, (computeEMA_series 20 (by decide) sampleRound).1,
   (computeEMA_series 20 (by decide) sampleRound).2.1,
   (computeEMA_series 20 (by decide) sampleRound).2.2.1 0 (by decide)⟩

/-! ## Outcome oracle -/

theorem setDirectionFromCandles_cons [LinearOrderedField α] (E : Env α) (s : Game α)
    (h : s.candles ≠ []) :
    (setDirectionFromCandles E s).currentDirection
        = some (if (s.candles.getLast h).close ≥ (s.candles.head h).open_
            then Dir.up else Dir.down) ∧
    (setDirectionFromCandles E s).rng = s.rng := by
  unfold setDirectionFromCandles
  split
  · next hnil => exact absurd hnil h
  · next c cs hcons =>
    simp only [hcons, List.head_cons, and_self]

/-- C9: on a non-empty path `setDirectionFromCandles` consumes no random draw and
sets `currentDirection` to a label fixed by the path alone: `'up'` exactly when
the last close is at least the first open, `'down'` otherwise. -/
theorem setDirectionFromCandles_oracle [LinearOrderedField α] (E : Env α) (s : Game α)
    (h : s.candles ≠ []) :
    ((setDirectionFromCandles E s).currentDirection = some Dir.up ↔
      (s.candles.getLast h).close ≥ (s.candles.head h).open_) ∧
    ((setDirectionFromCandles E s).currentDirection = some Dir.down ↔
      ¬ (s.candles.getLast h).close ≥ (s.candles.head h).open_) ∧
    (setDirectionFromCandles E s).rng = s.rng ∧
    (∀ (E2 : Env α) (s2 : Game α), s2.candles = s.candles →
      (setDirectionFromCandles E2 s2).currentDirection
        = (setDirectionFromCandles E s).currentDirection) := by
  obtain ⟨hd, hr⟩ := setDirectionFromCandles_cons E s h
  refine ⟨?_, ?_, hr, ?_⟩
  · rw [hd]
    by_cases hc : (s.candles.getLast h).close ≥ (s.candles.head h).open_ <;> simp [hc]
  · rw [hd]
    by_cases hc : (s.candles.getLast h).close ≥ (s.candles.head h).open_ <;> simp [hc]
  · intro E2 s2 heq
    have h2 : s2.candles ≠ [] := heq ▸ h
    rw [hd, (setDirectionFromCandles_cons E2 s2 h2).1]
    simp only [heq]

/-- C9 at a concrete input: the two-bar path opens at 100 and closes at 102, so
the label is `'up'` and the cursor of the random stream stays at 0. -/
theorem setDirectionFromCandles_oracle_witness :
    (setDirectionFromCandles sampleEnv sampleRound).currentDirection = some Dir.up ∧
    (setDirectionFromCandles sampleEnv sampleRound).rng = 0 :=
  ⟨(setDirectionFromCandles_oracle sampleEnv sampleRound (by decide)).1.mpr (by
      show (100 : ℚ) ≤ 102
      norm_num),
   (setDirectionFromCandles_oracle sampleEnv sampleRound (by decide)).2.2.1⟩

/-! ## Non-positive arguments -/

theorem candleLoop_length [LinearOrderedField α] (E : Env α) (k : Nat) (p : α) (n : Nat) :
    (candleLoop E k p n).1.length = k := by
  induction k generalizing p n with
  | zero => simp [candleLoop]
  | succ k ih => simp [candleLoop, ih]

/-- C3, counterexample: on a round in progress `generateCandles(0)` returns
normally with `this.candles` emptied, and `computeEMA(0)` returns normally with
`this.ema20` overwritten. -/
theorem nonpositive_arguments_overwrite :
    (generateCandles sampleEnv 0 sampleRound).candles = [] ∧
    (generateCandles sampleEnv 0 sampleRound).candles ≠ sampleRound.candles ∧
    (computeEMA 0 sampleRound).ema20 = [100, 104] ∧
    (computeEMA 0 sampleRound).ema20 ≠ sampleRound.ema20 := by
  have h1 : (generateCandles sampleEnv 0 sampleRound).candles = [] := by
    simp [generateCandles, candleLoop]
  have h2 : (computeEMA 0 sampleRound).ema20 = [100, 104] := by
    simp [computeEMA, emaLoop, sampleRound]
    norm_num
  refine ⟨h1, ?_, h2, ?_⟩
  · rw [h1]
    simp [sampleRound]
  · rw [h2]
    simp [sampleRound]
    norm_num

/-- C3, amended: neither method validates its argument. For `count <= 0`,
`generateCandles(count)` runs to completion, consumes the one uniform draw of the
starting price and replaces `this.candles` by the empty path; for `period <= 0`,
`computeEMA(period)` runs to completion and replaces `this.ema20` by a series
with one value per bar, the first being the first close, leaving the path
unchanged. -/
theorem nonpositive_arguments_accepted [LinearOrderedField α] (E : Env α) (s : Game α)
    (count period : Int) (hc : count ≤ 0) (hp : period ≤ 0) :
    (generateCandles E count s).candles = [] ∧
    (generateCandles E count s).rng = s.rng + 1 ∧
    (generateCandles E count s).ema20 = s.ema20 ∧
    (computeEMA period s).ema20.length = s.candles.length ∧
    (computeEMA period s).ema20[0]? = (s.candles[0]?).map Candle.close ∧
    (computeEMA period s).candles = s.candles := by
  have _ := hp
  have h0 : count.toNat = 0 := Int.toNat_eq_zero.mpr hc
  refine ⟨?_, ?_, ?_, ?_, ?_, ?_⟩
  · simp [generateCandles, h0, candleLoop]
  · simp [generateCandles, h0, candleLoop]
  · simp [generateCandles]
  · simp [computeEMA, emaLoop_length]
  · cases hcs : s.candles with
    | nil => simp [computeEMA, hcs, emaLoop]
    | cons c cs => simp [computeEMA, hcs, emaLoop]
  · simp [computeEMA]

/-- C3, amended, at concrete inputs: `count = -1` and `period = 0` on the round
in progress. -/
theorem nonpositive_arguments_accepted_witness :
    (generateCandles sampleEnv (-1) sampleRound).candles = [] ∧
    (computeEMA 0 sampleRound).ema20.length = 2 :=
  ⟨(nonpositive_arguments_accepted sampleEnv sampleRound (-1) 0 (by decide) (by decide)).1,
   (nonpositive_arguments_accepted sampleEnv sampleRound (-1) 0 (by decide) (by decide)).2.2.2.1⟩

/-! ## Shape of the generated bars -/

theorem candleStep_open [LinearOrderedField α] (E : Env α) (p : α) (n : Nat) :
    (candleStep E p n).1.open_ = p := rfl

theorem candleStep_close_pos [LinearOrderedField α] (E : Env α) (p : α) (n : Nat)
    (hp : 0 < p) : 0 < (candleStep E p n).1.close := by
  simp only [candleStep]
  apply mul_pos hp
  have h : -(0.035 : α) ≤ max (-0.035) (min 0.035
      ((p * E.exp (0.0005 - 0.5 * 0.02 * 0.02 + 0.02 * (E.randn n).1) - p) / p)) :=
    le_max_left _ _
  have h2 : (0 : α) < 1 + -0.035 := by norm_num
  linarith

theorem candleStep_shape [LinearOrderedField α] (E : Env α) (p : α) (n : Nat)
    (hp : 0 < p) (hU : ∀ i, 0 ≤ E.random i ∧ E.random i < 1) :
    (candleStep E p n).1.low ≤ min (candleStep E p n).1.open_ (candleStep E p n).1.close ∧
    max (candleStep E p n).1.open_ (candleStep E p n).1.close ≤ (candleStep E p n).1.high ∧
    0 ≤ (candleStep E p n).1.vol := by
  simp only [candleStep]
  generalize p * (1 + max (-0.035) (min 0.035
      ((p * E.exp (0.0005 - 0.5 * 0.02 * 0.02 + 0.02 * (E.randn n).1) - p) / p))) = close
  have hbody : 0 ≤ |close - p| := abs_nonneg _
  have u0 := (hU (E.randn n).2).1
  have u1 := (hU ((E.randn n).2 + 1)).1
  have u2 := (hU ((E.randn n).2 + 2)).1
  have u3 := (hU ((E.randn n).2 + 3)).1
  have u4 := (hU ((E.randn n).2 + 4)).1
  have u5 := (hU ((E.randn n).2 + 5)).1
  have hw : 0 ≤ |close - p| * (0.6 + E.random (E.randn n).2 * 1.2)
      + p * (0.001 + E.random ((E.randn n).2 + 1) * 0.004) := by
    positivity
  refine ⟨?_, ?_, ?_⟩
  · have : 0 ≤ (|close - p| * (0.6 + E.random (E.randn n).2 * 1.2)
      + p * (0.001 + E.random ((E.randn n).2 + 1) * 0.004))
        * (0.4 + E.random ((E.randn n).2 + 3) * 0.8) := by positivity
    linarith
  · have : 0 ≤ (|close - p| * (0.6 + E.random (E.randn n).2 * 1.2)
      + p * (0.001 + E.random ((E.randn n).2 + 1) * 0.004))
        * (0.4 + E.random ((E.randn n).2 + 2) * 0.8) := by positivity
    linarith
  · have : 0 ≤ |close - p| / p := div_nonneg hbody hp.le
    positivity

theorem candleLoop_shape [LinearOrderedField α] (E : Env α)
    (hU : ∀ i, 0 ≤ E.random i ∧ E.random i < 1) (k : Nat) (p : α) (n : Nat) (hp : 0 < p) :
    ∀ c ∈ (candleLoop E k p n).1,
      0 < c.open_ ∧ c.low ≤ min c.open_ c.close ∧ max c.open_ c.close ≤ c.high ∧ 0 ≤ c.vol := by
  induction k generalizing p n with
  | zero => simp [candleLoop]
  | succ k ih =>
    intro c hc
    simp only [candleLoop, List.mem_cons] at hc
    rcases hc with rfl | hc
    · exact ⟨by rw [candleStep_open]; exact hp, candleStep_shape E p n hp hU⟩
    · exact ih _ _ (candleStep_close_pos E p n hp) c hc

/-- C4: for every count `n >= 1`, every stream of uniform draws in `[0,1)` and
every deviate returned by `randn`, in any linearly ordered field (the reals
among them), the path built by `generateCandles(n)` has `n` bars and each of
them has `open > 0`, `low <= min(open, close)`, `max(open, close) <= high` and
`vol >= 0`. -/
theorem generateCandles_bars [LinearOrderedField α] (E : Env α)
    (hU : ∀ i, 0 ≤ E.random i ∧ E.random i < 1) (n : Int) (hn : 1 ≤ n) (s : Game α) :
    ((generateCandles E n s).candles.length : Int) = n ∧
    ∀ c ∈ (generateCandles E n s).candles,
      0 < c.open_ ∧ c.low ≤ min c.open_ c.close ∧ max c.open_ c.close ≤ c.high ∧ 0 ≤ c.vol := by
  refine ⟨?_, ?_⟩
  · simp only [generateCandles, candleLoop_length]
    omega
  · simp only [generateCandles]
    apply candleLoop_shape E hU
    have := (hU s.rng).1
    positivity

/-- C4 over the reals: `Math.exp` is the real exponential, every uniform draw is
`1/2`, every deviate is `0`, and `generateCandles(48)` runs on a fresh object. -/
theorem generateCandles_bars_witness :
    (∀ i : Nat, (0 : ℝ) ≤ (fun _ => 1 / 2 : Nat → ℝ) i ∧ (fun _ => 1 / 2 : Nat → ℝ) i < 1) ∧
    (1 : Int) ≤ 48 ∧
    ∀ c ∈ (generateCandles
        ({ exp := Real.exp, random := fun _ => 1 / 2, randn := fun n => (0, n + 2) } : Env ℝ)
        48 (initial none)).candles,
      0 < c.open_ ∧ c.low ≤ min c.open_ c.close ∧ max c.open_ c.close ≤ c.high ∧ 0 ≤ c.vol :=
  ⟨fun _ => by norm_num, by decide,
   (generateCandles_bars
      ({ exp := Real.exp, random := fun _ => 1 / 2, randn := fun n => (0, n + 2) } : Env ℝ)
      (fun _ => by norm_num) 48 (by decide) (initial none)).2⟩

/-! ## The round state machine: effect of each method -/

theorem startNewRound_active [LinearOrderedField α] (E : Env α) (s : Game α)
    (h : s.gameActive = true) :
    ∃ cs em d r, startNewRound E s =
      { s with isWaitingForNextRound := false
               timer := max 1 (3 - Int.fdiv s.score 50)
               candles := cs
               ema20 := em
               currentDirection := some d
               rng := r
               timerInterval := some (max 1 (3 - Int.fdiv s.score 50))
               buttonsDisabled := false } := by
  unfold startNewRound
  simp only [h, Bool.not_true, Bool.false_eq_true, if_false]
  unfold setDirectionFromCandles
  split
  · next hnil => exact ⟨_, _, _, _, rfl⟩
  · next c cs hcons => exact ⟨_, _, _, _, rfl⟩

theorem maybeUpdateHighScore_scoreStep (s : Game α) : ScoreStep s (maybeUpdateHighScore s) := by
  unfold ScoreStep maybeUpdateHighScore
  split
  · next h => exact ⟨Or.inl rfl, Or.inr ⟨h, rfl, rfl⟩⟩
  · exact ⟨Or.inl rfl, Or.inl ⟨Or.inr rfl, rfl, rfl⟩⟩

theorem handleCorrect_scoreStep (s : Game α) : ScoreStep s (handleCorrect s) := by
  unfold ScoreStep handleCorrect queueNextRound disableButtons maybeUpdateHighScore
  simp only
  split <;> split <;> simp_all

theorem handleWrong_scoreStep (s : Game α) : ScoreStep s (handleWrong s) := by
  unfold ScoreStep handleWrong endGame queueNextRound disableButtons maybeUpdateHighScore
  simp only
  split <;> try split
  all_goals simp_all

theorem scoreStep_refl (s : Game α) : ScoreStep s s :=
  ⟨Or.inl rfl, Or.inl ⟨Or.inr rfl, rfl, rfl⟩⟩

theorem makeChoice_scoreStep (c : Dir) (s : Game α) : ScoreStep s (makeChoice c s) := by
  unfold makeChoice
  split
  · exact scoreStep_refl s
  · simp only
    split
    · exact handleCorrect_scoreStep { s with timerInterval := none }
    · exact handleWrong_scoreStep { s with timerInterval := none }

theorem click_scoreStep (c : Dir) (s : Game α) : ScoreStep s (click c s) := by
  unfold click
  split
  · exact scoreStep_refl s
  · exact makeChoice_scoreStep c s

theorem timerTick_scoreStep (s : Game α) : ScoreStep s (timerTick s) := by
  unfold timerTick
  split
  · exact scoreStep_refl s
  · simp only
    split
    · exact handleWrong_scoreStep { s with timerInterval := none }
    · exact scoreStep_refl s

theorem nextRoundTimeout_scoreStep [LinearOrderedField α] (E : Env α) (s : Game α) :
    ScoreStep s (nextRoundTimeout E s) := by
  unfold nextRoundTimeout
  split
  · exact scoreStep_refl s
  · next p hp =>
    obtain ⟨h1, h2, -, -, -, h6⟩ := startNewRound_frame E { s with pending := p }
    unfold ScoreStep
    rw [h1, h2, h6]
    exact scoreStep_refl s

theorem step_scoreStep [LinearOrderedField α] (E : Env α) (e : Event) (s : Game α) :
    ScoreStep s (step E e s) := by
  cases e with
  | choice d => exact makeChoice_scoreStep d s
  | click d => exact click_scoreStep d s
  | tick => exact timerTick_scoreStep s
  | nextRound => exact nextRoundTimeout_scoreStep E s
  | correct => exact handleCorrect_scoreStep s
  | wrong => exact handleWrong_scoreStep s

/-! ## Traces -/

theorem newGame_fields [LinearOrderedField α] (E : Env α) (saved : Option Int) :
    (newGame E saved).score = 0 ∧ (newGame E saved).lives = 3 ∧
    (newGame E saved).level = 1 ∧ (newGame E saved).gameActive = true ∧
    (newGame E saved).writes = [] ∧ (newGame E saved).highScore = saved.getD 0 := by
  obtain ⟨h1, h2, h3, h4, h5, h6⟩ := startNewRound_frame E (loadHighScore (initial saved))
  unfold newGame
  rw [h1, h2, h3, h4, h5, h6]
  cases saved <;> simp [loadHighScore, initial]

theorem restartGame_fields [LinearOrderedField α] (E : Env α) (s : Game α) :
    (restartGame E s).score = 0 ∧ (restartGame E s).lives = 3 ∧
    (restartGame E s).level = 1 ∧ (restartGame E s).gameActive = true ∧
    (restartGame E s).writes = s.writes ∧ (restartGame E s).highScore = s.highScore := by
  unfold restartGame
  obtain ⟨h1, h2, h3, h4, h5, h6⟩ := startNewRound_frame E
    { s with score := 0, lives := 3, level := 1, timer := 3,
             gameActive := true, newRecordAchieved := false }
  rw [h1, h2, h3, h4, h5, h6]
  simp

theorem run_score_dvd [LinearOrderedField α] (E : Env α) (evs : List Event) (s : Game α)
    (h : (10 : Int) ∣ s.score) : (10 : Int) ∣ (run E evs s).score := by
  induction evs generalizing s with
  | nil => exact h
  | cons e es ih =>
    apply ih
    obtain ⟨h1 | h1, -⟩ := step_scoreStep E e s
    · rw [h1]; exact h
    · rw [h1]; exact dvd_add h (dvd_refl 10)

theorem run_score_le [LinearOrderedField α] (E : Env α) (evs : List Event) (s : Game α) :
    s.score ≤ (run E evs s).score := by
  induction evs generalizing s with
  | nil => exact le_refl _
  | cons e es ih =>
    refine le_trans ?_ (ih (step E e s))
    obtain ⟨h1 | h1, -⟩ := step_scoreStep E e s <;> omega

theorem run_score_le_highScore [LinearOrderedField α] (E : Env α) (evs : List Event)
    (s : Game α) (h : s.score ≤ s.highScore) :
    (run E evs s).score ≤ (run E evs s).highScore := by
  induction evs generalizing s with
  | nil => exact h
  | cons e es ih =>
    apply ih
    obtain ⟨-, ⟨h1 | h1, h2, -⟩ | ⟨-, h2, -⟩⟩ := step_scoreStep E e s <;> omega

theorem run_no_write [LinearOrderedField α] (E : Env α) (evs : List Event) (s : Game α)
    (h : (run E evs s).score ≤ s.highScore) :
    (run E evs s).writes = s.writes ∧ (run E evs s).highScore = s.highScore := by
  induction evs generalizing s with
  | nil => exact ⟨rfl, rfl⟩
  | cons e es ih =>
    have hmono := run_score_le E es (step E e s)
    show (run E es (step E e s)).writes = s.writes ∧ (run E es (step E e s)).highScore = s.highScore
    have h0 : (run E es (step E e s)).score ≤ s.highScore := h
    obtain ⟨-, ⟨-, h2, h3⟩ | ⟨h1, -, -⟩⟩ := step_scoreStep E e s
    · obtain ⟨i1, i2⟩ := ih (step E e s) (by omega)
      exact ⟨i1.trans h3, i2.trans h2⟩
    · omega

theorem run_best_100 [LinearOrderedField α] (E : Env α) (evs : List Event) (s : Game α)
    (h10 : (10 : Int) ∣ s.score)
    (h : (s.score ≤ 100 ∧ s.highScore = 100 ∧ s.writes = []) ∨
      (s.score = 110 ∧ s.highScore = 110 ∧ s.writes = [110]) ∨ 110 < s.score) :
    ((run E evs s).score ≤ 100 ∧ (run E evs s).highScore = 100 ∧ (run E evs s).writes = []) ∨
    ((run E evs s).score = 110 ∧ (run E evs s).highScore = 110 ∧
      (run E evs s).writes = [110]) ∨ 110 < (run E evs s).score := by
  induction evs generalizing s with
  | nil => exact h
  | cons e es ih =>
    have hd : (10 : Int) ∣ (step E e s).score := run_score_dvd E [e] s h10
    apply ih _ hd
    obtain ⟨k, hk⟩ := h10
    obtain ⟨hs, hw⟩ := step_scoreStep E e s
    rcases h with ⟨a1, a2, a3⟩ | ⟨a1, a2, a3⟩ | a1
    · rcases hw with ⟨w1, w2, w3⟩ | ⟨w1, w2, w3⟩
      · have hle : (step E e s).score ≤ 100 := by omega
        exact Or.inl ⟨hle, by omega, by rw [w3, a3]⟩
      · have h110 : (step E e s).score = 110 := by omega
        exact Or.inr (Or.inl ⟨h110, by omega, by rw [w3, a3, h110]; rfl⟩)
    · rcases hw with ⟨-, w2, w3⟩ | ⟨w1, w2, w3⟩
      · rcases hs with hs | hs
        · exact Or.inr (Or.inl ⟨by omega, by omega, by rw [w3, a3]⟩)
        · right; right; omega
      · right; right; omega
    · right; right
      rcases hs with hs | hs <;> omega

/-- C6: along any finite sequence of events applied to a fresh game (decisions,
clicks, timer ticks, queued round starts and the Correct/Wrong handlers
themselves), the score is a non-negative multiple of 10 in every state reached
and no event lowers it. -/
theorem score_monotone_multiple_of_ten [LinearOrderedField α] (E : Env α)
    (saved : Option Int) (evs : List Event) :
    (10 : Int) ∣ (run E evs (newGame E saved)).score ∧
    Int.tmod (run E evs (newGame E saved)).score 10 = 0 ∧
    0 ≤ (run E evs (newGame E saved)).score ∧
    (∀ e : Event, (run E evs (newGame E saved)).score
      ≤ (step E e (run E evs (newGame E saved))).score) ∧
    (∀ more : List Event, (run E evs (newGame E saved)).score
      ≤ (run E more (run E evs (newGame E saved))).score) := by
  have h0 : (newGame E saved).score = 0 := (newGame_fields E saved).1
  have hd : (10 : Int) ∣ (run E evs (newGame E saved)).score :=
    run_score_dvd E evs _ (by rw [h0]; exact dvd_zero 10)
  refine ⟨hd, Int.tmod_eq_zero_of_dvd hd, ?_, ?_, ?_⟩
  · have := run_score_le E evs (newGame E saved)
    omega
  · intro e
    exact run_score_le E [e] _
  · intro more
    exact run_score_le E more _

/-! ## Best score -/

/-- C10: `maybeUpdateHighScore` is a compare-then-set: when `score > highScore`
it sets `highScore` to `score` and writes that value once, otherwise it changes
nothing. Hence a game started (constructed or restarted) with a non-negative best
score keeps `highScore >= score` in every state; and with a stored best of 100,
a game at score 110 has written exactly once, the value 110, and a later game
whose score is still below 110 has written nothing more. -/
theorem maybeUpdateHighScore_compare_then_set [LinearOrderedField α] (E : Env α) :
    (∀ s : Game α, s.score > s.highScore →
      (maybeUpdateHighScore s).highScore = s.score ∧
      (maybeUpdateHighScore s).writes = s.writes ++ [s.score] ∧
      (maybeUpdateHighScore s).storage = some s.score) ∧
    (∀ s : Game α, ¬ s.score > s.highScore → maybeUpdateHighScore s = s) ∧
    (∀ (saved : Option Int) (evs : List Event), 0 ≤ saved.getD 0 →
      (run E evs (newGame E saved)).score ≤ (run E evs (newGame E saved)).highScore) ∧
    (∀ (s : Game α) (evs : List Event), 0 ≤ s.highScore →
      (run E evs (restartGame E s)).score ≤ (run E evs (restartGame E s)).highScore) ∧
    (∀ evs1 evs2 : List Event, (run E evs1 (newGame E (some 100))).score = 110 →
      (run E evs1 (newGame E (some 100))).writes = [110] ∧
      ((run E evs2 (restartGame E (run E evs1 (newGame E (some 100))))).score < 110 →
        (run E evs2 (restartGame E (run E evs1 (newGame E (some 100))))).writes = [110])) := by
  refine ⟨?_, ?_, ?_, ?_, ?_⟩
  · intro s h
    simp [maybeUpdateHighScore, h]
  · intro s h
    simp [maybeUpdateHighScore, h]
  · intro saved evs h
    obtain ⟨h1, -, -, -, -, h6⟩ := newGame_fields E saved
    exact run_score_le_highScore E evs _ (by rw [h1, h6]; exact h)
  · intro s evs h
    obtain ⟨h1, -, -, -, -, h6⟩ := restartGame_fields E s
    exact run_score_le_highScore E evs _ (by rw [h1, h6]; exact h)
  · intro evs1 evs2 h110
    obtain ⟨h1, -, -, -, h5, h6⟩ := newGame_fields E (some 100)
    have hinv := run_best_100 E evs1 (newGame E (some 100)) (by rw [h1]; exact dvd_zero 10)
      (Or.inl ⟨by rw [h1]; decide, by rw [h6]; rfl, h5⟩)
    have hw : (run E evs1 (newGame E (some 100))).highScore = 110 ∧
        (run E evs1 (newGame E (some 100))).writes = [110] := by
      rcases hinv with ⟨a, -, -⟩ | ⟨-, a, b⟩ | a
      · omega
      · exact ⟨a, b⟩
      · omega
    refine ⟨hw.2, ?_⟩
    intro hlt
    obtain ⟨-, -, -, -, r5, r6⟩ := restartGame_fields E (run E evs1 (newGame E (some 100)))
    have hnw := run_no_write E evs2 (restartGame E (run E evs1 (newGame E (some 100))))
      (by rw [r6, hw.1]; omega)
    rw [hnw.1, r5, hw.2]

/-- C10 at concrete inputs: stored best 100, eleven Correct outcomes give score
110 and the storage log `[110]`; after a restart and ten Correct outcomes (score
100) the log is still `[110]`. -/
theorem maybeUpdateHighScore_compare_then_set_witness :
    (run sampleEnv (List.replicate 11 Event.correct) (newGame sampleEnv (some 100))).score = 110 ∧
    (run sampleEnv (List.replicate 11 Event.correct) (newGame sampleEnv (some 100))).writes
      = [110] ∧
    (run sampleEnv (List.replicate 10 Event.correct)
      (restartGame sampleEnv
        (run sampleEnv (List.replicate 11 Event.correct) (newGame sampleEnv (some 100))))).score
      < 110 ∧
    (run sampleEnv (List.replicate 10 Event.correct)
      (restartGame sampleEnv
        (run sampleEnv (List.replicate 11 Event.correct) (newGame sampleEnv (some 100))))).writes
      = [110] :=
  ⟨by decide,
   ((maybeUpdateHighScore_compare_then_set sampleEnv).2.2.2.2
      (List.replicate 11 Event.correct) (List.replicate 10 Event.correct) (by decide)).1,
   by decide,
   ((maybeUpdateHighScore_compare_then_set sampleEnv).2.2.2.2
      (List.replicate 11 Event.correct) (List.replicate 10 Event.correct) (by decide)).2
      (by decide)⟩

/-! ## Lost rounds and the end of the game -/

theorem timerTick_iterate_expire (n : Nat) (s : Game α)
    (h : s.timerInterval = some ((n : Int) + 1)) :
    timerTick^[n + 1] s = handleWrong { s with timerInterval := none } := by
  induction n generalizing s with
  | zero =>
    simp only [Function.iterate_succ, Function.iterate_zero, Function.comp_apply, id_eq]
    unfold timerTick
    simp [h]
  | succ n ih =>
    rw [Function.iterate_succ_apply]
    have hstep : timerTick s = { s with timerInterval := some ((n : Int) + 1) } := by
      unfold timerTick
      simp only [h]
      have : ¬ ((((n + 1 : Nat) : Int) + 1 - 1) ≤ 0) := by omega
      simp only [this, if_false]
      congr 2
      omega
    rw [hstep, ih _ rfl]

theorem lose_eq (w : Loss) (s : Game α) (h : RoundOpen s) :
    lose w s = handleWrong { s with timerInterval := none } := by
  obtain ⟨-, h2, h3, h4, -, -⟩ := h
  cases w with
  | mismatch =>
    have hne : (some (wrongChoice s) == s.currentDirection) = false := by
      unfold wrongChoice
      rcases hd : s.currentDirection with _ | d
      · rfl
      · cases d <;> rfl
    simp only [lose, makeChoice, h2, Bool.false_eq_true, if_false, hne]
  | timeout =>
    obtain ⟨n, hn⟩ : ∃ n : Nat, s.timer = (n : Int) + 1 := ⟨(s.timer - 1).toNat, by omega⟩
    have ht : s.timer.toNat = n + 1 := by omega
    simp only [lose, ht]
    exact timerTick_iterate_expire n s (by rw [h3, hn])

theorem startNewRound_roundOpen [LinearOrderedField α] (E : Env α) (s : Game α)
    (h : s.gameActive = true) (hp : s.pending = 0) :
    RoundOpen (startNewRound E s) ∧ (startNewRound E s).lives = s.lives ∧
    (startNewRound E s).score = s.score := by
  obtain ⟨cs, em, d, r, heq⟩ := startNewRound_active E s h
  rw [heq]
  refine ⟨⟨h, rfl, rfl, le_max_left _ _, rfl, hp⟩, rfl, rfl⟩

theorem newGame_roundOpen [LinearOrderedField α] (E : Env α) (saved : Option Int) :
    RoundOpen (newGame E saved) :=
  (startNewRound_roundOpen E (loadHighScore (initial saved)) rfl rfl).1

theorem lose_then_next [LinearOrderedField α] (E : Env α) (w : Loss) (s : Game α)
    (h : RoundOpen s) (hl : 1 < s.lives) :
    RoundOpen (nextRoundTimeout E (lose w s)) ∧
    (nextRoundTimeout E (lose w s)).lives = s.lives - 1 ∧
    (nextRoundTimeout E (lose w s)).score = s.score ∧
    ∃ u : Game α, u.gameActive = true ∧ nextRoundTimeout E (lose w s) = startNewRound E u := by
  rw [lose_eq w s h]
  obtain ⟨h1, -, -, -, -, h6⟩ := h
  have hq : handleWrong { s with timerInterval := none }
      = queueNextRound { s with timerInterval := none, lives := s.lives - 1 } := by
    unfold handleWrong
    have : ¬ (s.lives - 1 ≤ 0) := by omega
    simp only [this, if_false]
  rw [hq]
  simp only [nextRoundTimeout, queueNextRound, disableButtons, h6]
  obtain ⟨r1, r2, r3⟩ := startNewRound_roundOpen E
    { s with timerInterval := none, lives := s.lives - 1, isWaitingForNextRound := true,
             pending := 0, buttonsDisabled := true } h1 rfl
  exact ⟨r1, r2, r3,
    { s with timerInterval := none, lives := s.lives - 1, isWaitingForNextRound := true,
             pending := 0, buttonsDisabled := true }, h1, rfl⟩

theorem lose_last (w : Loss) (s : Game α) (h : RoundOpen s) (hl : s.lives = 1) :
    (lose w s).gameActive = false ∧ (lose w s).lives = 0 ∧ (lose w s).score = s.score ∧
    (lose w s).timerInterval = none ∧ (lose w s).buttonsDisabled = true ∧
    (lose w s).pending = 0 ∧ (lose w s).isWaitingForNextRound = false ∧
    (lose w s).currentDirection = s.currentDirection := by
  rw [lose_eq w s h]
  obtain ⟨-, h2, -, -, -, h6⟩ := h
  unfold handleWrong endGame disableButtons maybeUpdateHighScore
  simp only [hl, sub_self, le_refl, if_true]
  split <;> simp [h2, h6]

theorem ended_fixed [LinearOrderedField α] (E : Env α) (s : Game α)
    (ht : s.timerInterval = none) (hb : s.buttonsDisabled = true) (hp : s.pending = 0) :
    timerTick s = s ∧ (∀ d : Dir, click d s = s) ∧ nextRoundTimeout E s = s := by
  refine ⟨?_, ?_, ?_⟩
  · simp [timerTick, ht]
  · intro d
    simp [click, hb]
  · simp [nextRoundTimeout, hp]

theorem sampleEnv_candleLoop (k : Nat) (p : ℚ) (n : Nat) :
    ∀ c ∈ (candleLoop sampleEnv k p n).1, c.open_ = p ∧ c.close = p := by
  have hstep : ∀ (q : ℚ) (m : Nat), (candleStep sampleEnv q m).1.close = q := by
    intro q m
    simp only [candleStep, sampleEnv, mul_one, sub_self, zero_div]
    norm_num
  induction k generalizing p n with
  | zero => simp [candleLoop]
  | succ k ih =>
    intro c hc
    simp only [candleLoop, List.mem_cons] at hc
    rcases hc with rfl | hc
    · exact ⟨rfl, hstep p n⟩
    · have := ih (candleStep sampleEnv p n).1.close (candleStep sampleEnv p n).2 c hc
      rw [hstep p n] at this
      exact this

theorem sampleEnv_oracle (t : Game ℚ) :
    (setDirectionFromCandles sampleEnv
      (computeEMA 20 (generateCandles sampleEnv 48 t))).currentDirection = some Dir.up := by
  have hne : (computeEMA 20 (generateCandles sampleEnv 48 t)).candles ≠ [] := by
    intro hnil
    have := congrArg List.length hnil
    simp [computeEMA, generateCandles, candleLoop_length] at this
  rw [(setDirectionFromCandles_cons sampleEnv _ hne).1]
  have hall := sampleEnv_candleLoop 48 (100 + sampleEnv.random t.rng * 20) (t.rng + 1)
  have hl := hall _ (List.getLast_mem hne)
  have hh := hall _ (List.head_mem hne)
  rw [hl.2, hh.1]
  simp

theorem sampleEnv_direction (s : Game ℚ) (h : s.gameActive = true) :
    (startNewRound sampleEnv s).currentDirection = some Dir.up := by
  unfold startNewRound
  simp only [h, Bool.not_true, Bool.false_eq_true, if_false, enableButtons, startTimer]
  exact sampleEnv_oracle _

theorem handleWrong_lives (s : Game α) :
    (handleWrong s).lives = s.lives - 1 ∧ (handleWrong s).score = s.score := by
  unfold handleWrong endGame queueNextRound disableButtons maybeUpdateHighScore
  simp only
  split <;> try split
  all_goals simp

theorem threeLosses_ended [LinearOrderedField α] (E : Env α) (saved : Option Int)
    (w1 w2 w3 : Loss) :
    (threeLosses E saved w1 w2 w3).gameActive = false ∧
    (threeLosses E saved w1 w2 w3).lives = 0 ∧
    (threeLosses E saved w1 w2 w3).score = 0 ∧
    (threeLosses E saved w1 w2 w3).timerInterval = none ∧
    (threeLosses E saved w1 w2 w3).buttonsDisabled = true ∧
    (threeLosses E saved w1 w2 w3).pending = 0 ∧
    (threeLosses E saved w1 w2 w3).isWaitingForNextRound = false ∧
    ∃ u : Game α, u.gameActive = true ∧
      (threeLosses E saved w1 w2 w3).currentDirection = (startNewRound E u).currentDirection := by
  obtain ⟨s0, -, -, -, -, -⟩ := newGame_fields E saved
  have l0 : (newGame E saved).lives = 3 := (newGame_fields E saved).2.1
  obtain ⟨o1, l1, s1, -⟩ := lose_then_next E w1 (newGame E saved) (newGame_roundOpen E saved)
    (by rw [l0]; decide)
  obtain ⟨o2, l2, s2, u, hu, hueq⟩ := lose_then_next E w2 _ o1 (by rw [l1, l0]; decide)
  obtain ⟨e1, e2, e3, e4, e5, e6, e7, e8⟩ := lose_last w3 _ o2 (by rw [l2, l1, l0]; decide)
  unfold threeLosses
  exact ⟨e1, e2, by rw [e3, s2, s1, s0], e4, e5, e6, e7, u, hu, by rw [e8, hueq]⟩

/-- C1, counterexample: after three mismatching decisions on a fresh game the
machine is Ended with `lives = 0` and `score = 0`, and a further `makeChoice`
passes the guard (`isWaitingForNextRound` is false): `makeChoice('up')` matches
`currentDirection` and raises the score to 10, `makeChoice('down')` lowers
`lives` to -1. -/
theorem ended_makeChoice_mutates :
    (threeLosses sampleEnv none Loss.mismatch Loss.mismatch Loss.mismatch).gameActive = false ∧
    (threeLosses sampleEnv none Loss.mismatch Loss.mismatch Loss.mismatch).lives = 0 ∧
    (threeLosses sampleEnv none Loss.mismatch Loss.mismatch Loss.mismatch).score = 0 ∧
    (threeLosses sampleEnv none Loss.mismatch Loss.mismatch Loss.mismatch).currentDirection
      = some Dir.up ∧
    (makeChoice Dir.up
      (threeLosses sampleEnv none Loss.mismatch Loss.mismatch Loss.mismatch)).score = 10 ∧
    (makeChoice Dir.down
      (threeLosses sampleEnv none Loss.mismatch Loss.mismatch Loss.mismatch)).lives = -1 := by
  obtain ⟨e1, e2, e3, -, -, -, e7, u, hu, hd⟩ :=
    threeLosses_ended sampleEnv none Loss.mismatch Loss.mismatch Loss.mismatch
  rw [sampleEnv_direction u hu] at hd
  refine ⟨e1, e2, e3, hd, ?_, ?_⟩
  · unfold makeChoice
    simp only [e7, Bool.false_eq_true, if_false, hd, beq_self_eq_true, if_true]
    rw [handleCorrect_score]
    simp [e3]
  · unfold makeChoice
    simp only [e7, Bool.false_eq_true, if_false, hd]
    have hne : (some Dir.down == some Dir.up) = false := rfl
    simp only [hne, Bool.false_eq_true, if_false]
    rw [(handleWrong_lives _).1]
    simp [e2]

/-- C1, amended: from a fresh game, three consecutive Wrong outcomes (each a
mismatching decision or a timeout, the queued round start running in between)
leave the machine Ended: `gameActive = false`, `lives = 0`, `score = 0`, the
countdown cancelled, both buttons disabled, nothing queued. In that state every
Timeout (interval callback), every click on either button and every queued
round start leaves the whole state, `score` and `lives` included, unchanged. -/
theorem three_losses_end_game [LinearOrderedField α] (E : Env α) (saved : Option Int)
    (w1 w2 w3 : Loss) :
    (threeLosses E saved w1 w2 w3).gameActive = false ∧
    (threeLosses E saved w1 w2 w3).lives = 0 ∧
    (threeLosses E saved w1 w2 w3).score = 0 ∧
    (threeLosses E saved w1 w2 w3).timerInterval = none ∧
    (threeLosses E saved w1 w2 w3).buttonsDisabled = true ∧
    timerTick (threeLosses E saved w1 w2 w3) = threeLosses E saved w1 w2 w3 ∧
    (∀ d : Dir, click d (threeLosses E saved w1 w2 w3) = threeLosses E saved w1 w2 w3) ∧
    nextRoundTimeout E (threeLosses E saved w1 w2 w3) = threeLosses E saved w1 w2 w3 := by
  obtain ⟨e1, e2, e3, e4, e5, e6, -, -⟩ := threeLosses_ended E saved w1 w2 w3
  obtain ⟨f1, f2, f3⟩ := ended_fixed E (threeLosses E saved w1 w2 w3) e4 e5 e6
  exact ⟨e1, e2, e3, e4, e5, f1, f2, f3⟩

/-! ## One resolution per round -/

theorem handleCorrect_round (s : Game α) :
    (handleCorrect s).isWaitingForNextRound = true ∧
    (handleCorrect s).timerInterval = s.timerInterval ∧
    (handleCorrect s).score = s.score + 10 ∧ (handleCorrect s).lives = s.lives ∧
    (handleCorrect s).gameActive = s.gameActive := by
  unfold handleCorrect queueNextRound disableButtons maybeUpdateHighScore
  simp only
  split <;> split <;> simp

theorem handleWrong_round (s : Game α) :
    (handleWrong s).timerInterval = s.timerInterval ∧
    (handleWrong s).score = s.score ∧ (handleWrong s).lives = s.lives - 1 ∧
    ((handleWrong s).gameActive = true →
      s.gameActive = true ∧ (handleWrong s).isWaitingForNextRound = true) := by
  unfold handleWrong endGame queueNextRound disableButtons maybeUpdateHighScore
  simp only
  split <;> try split
  all_goals simp

theorem makeChoice_round (c : Dir) (u : Game α) (hw : u.isWaitingForNextRound = false) :
    (makeChoice c u).timerInterval = none ∧
    ((makeChoice c u).gameActive = true →
      u.gameActive = true ∧ (makeChoice c u).isWaitingForNextRound = true ∧
      (((makeChoice c u).score = u.score + 10 ∧ (makeChoice c u).lives = u.lives) ∨
        ((makeChoice c u).score = u.score ∧ (makeChoice c u).lives = u.lives - 1))) := by
  unfold makeChoice
  split
  · next h =>
    rw [hw] at h
    exact absurd h (by decide)
  · simp only
    split
    · obtain ⟨h1, h2, h3, h4, h5⟩ := handleCorrect_round { u with timerInterval := none }
      exact ⟨h2, fun ha => ⟨h5 ▸ ha, h1, Or.inl ⟨h3, h4⟩⟩⟩
    · obtain ⟨h1, h2, h3, h4⟩ := handleWrong_round { u with timerInterval := none }
      exact ⟨h1, fun ha => ⟨(h4 ha).1, (h4 ha).2, Or.inr ⟨h2, h3⟩⟩⟩

theorem timerTick_round (u : Game α) (hw : u.isWaitingForNextRound = false) :
    (timerTick u).gameActive = true →
      u.gameActive = true ∧
      (((timerTick u).isWaitingForNextRound = false ∧ (timerTick u).score = u.score ∧
          (timerTick u).lives = u.lives) ∨
        ((timerTick u).isWaitingForNextRound = true ∧ (timerTick u).timerInterval = none ∧
          (timerTick u).score = u.score ∧ (timerTick u).lives = u.lives - 1)) := by
  unfold timerTick
  split
  · intro ha
    exact ⟨ha, Or.inl ⟨hw, rfl, rfl⟩⟩
  · simp only
    split
    · obtain ⟨h1, h2, h3, h4⟩ := handleWrong_round { u with timerInterval := none }
      intro ha
      exact ⟨(h4 ha).1, Or.inr ⟨(h4 ha).2, h1, h2, h3⟩⟩
    · intro ha
      exact ⟨ha, Or.inl ⟨hw, rfl, rfl⟩⟩

theorem inRound_step_waiting [LinearOrderedField α] (E : Env α) (e : Event) (u : Game α)
    (he : e.inRound = true) (hw : u.isWaitingForNextRound = true)
    (ht : u.timerInterval = none) : step E e u = u := by
  cases e with
  | choice d => simp [step, makeChoice, hw]
  | click d => simp [step, click, makeChoice, hw]
  | tick => simp [step, timerTick, ht]
  | nextRound => simp [Event.inRound] at he
  | correct => simp [Event.inRound] at he
  | wrong => simp [Event.inRound] at he

theorem inRound_step_open [LinearOrderedField α] (E : Env α) (e : Event) (u : Game α)
    (he : e.inRound = true) (hw : u.isWaitingForNextRound = false)
    (ha : (step E e u).gameActive = true) :
    u.gameActive = true ∧
    (((step E e u).isWaitingForNextRound = false ∧ (step E e u).score = u.score ∧
        (step E e u).lives = u.lives) ∨
      ((step E e u).isWaitingForNextRound = true ∧ (step E e u).timerInterval = none ∧
        (((step E e u).score = u.score + 10 ∧ (step E e u).lives = u.lives) ∨
          ((step E e u).score = u.score ∧ (step E e u).lives = u.lives - 1)))) := by
  cases e with
  | choice d =>
    obtain ⟨h1, h2⟩ := makeChoice_round d u hw
    obtain ⟨a, b, c⟩ := h2 ha
    exact ⟨a, Or.inr ⟨b, h1, c⟩⟩
  | click d =>
    simp only [step, click] at ha ⊢
    split
    · next hb =>
      simp only [hb, if_true] at ha
      exact ⟨ha, Or.inl ⟨hw, rfl, rfl⟩⟩
    · next hb =>
      simp only [hb, if_false] at ha
      obtain ⟨h1, h2⟩ := makeChoice_round d u hw
      obtain ⟨a, b, c⟩ := h2 ha
      exact ⟨a, Or.inr ⟨b, h1, c⟩⟩
  | tick =>
    obtain ⟨a, b⟩ := timerTick_round u hw ha
    refine ⟨a, ?_⟩
    rcases b with b | ⟨b1, b2, b3, b4⟩
    · exact Or.inl b
    · exact Or.inr ⟨b1, b2, Or.inr ⟨b3, b4⟩⟩
  | nextRound => simp [Event.inRound] at he
  | correct => simp [Event.inRound] at he
  | wrong => simp [Event.inRound] at he

theorem inRound_run_inactive [LinearOrderedField α] (E : Env α) (es : List Event)
    (v : Game α) (hes : ∀ x ∈ es, x.inRound = true) (hv : v.gameActive ≠ true) :
    (run E es v).gameActive ≠ true := by
  induction es generalizing v with
  | nil => exact hv
  | cons x xs ih =>
    apply ih (step E x v) (fun y hy => hes y (List.mem_cons_of_mem x hy))
    intro hstep
    have hx : x.inRound = true := hes x (List.mem_cons_self x xs)
    by_cases hvw : v.isWaitingForNextRound = true
    · cases x with
      | choice d => simp [step, makeChoice, hvw] at hstep; exact hv hstep
      | click d => simp [step, click, makeChoice, hvw] at hstep; exact hv hstep
      | tick =>
        simp only [step, timerTick] at hstep
        split at hstep
        · exact hv hstep
        · split at hstep
          · exact hv ((handleWrong_round _).2.2.2 hstep).1
          · exact hv hstep
      | nextRound => simp [Event.inRound] at hx
      | correct => simp [Event.inRound] at hx
      | wrong => simp [Event.inRound] at hx
    · have hvw2 : v.isWaitingForNextRound = false := by simpa using hvw
      exact hv (inRound_step_open E x v hx hvw2 hstep).1

theorem inRound_run [LinearOrderedField α] (E : Env α) (s : Game α) (evs : List Event)
    (u : Game α) (hev : ∀ e ∈ evs, e.inRound = true)
    (hu : (u.isWaitingForNextRound = false ∧ u.score = s.score ∧ u.lives = s.lives) ∨
      (u.isWaitingForNextRound = true ∧ u.timerInterval = none ∧
        ((u.score = s.score + 10 ∧ u.lives = s.lives) ∨
          (u.score = s.score ∧ u.lives = s.lives - 1))))
    (ha : (run E evs u).gameActive = true) :
    ((run E evs u).isWaitingForNextRound = false ∧ (run E evs u).score = s.score ∧
      (run E evs u).lives = s.lives) ∨
    ((run E evs u).isWaitingForNextRound = true ∧ (run E evs u).timerInterval = none ∧
      (((run E evs u).score = s.score + 10 ∧ (run E evs u).lives = s.lives) ∨
        ((run E evs u).score = s.score ∧ (run E evs u).lives = s.lives - 1))) := by
  induction evs generalizing u with
  | nil => exact hu
  | cons e es ih =>
    have he : e.inRound = true := hev e (List.mem_cons_self e es)
    have hes : ∀ x ∈ es, x.inRound = true := fun x hx => hev x (List.mem_cons_of_mem e hx)
    rcases hu with ⟨w, a, b⟩ | ⟨w, t, c⟩
    · by_cases hact : (step E e u).gameActive = true
      · obtain ⟨-, h⟩ := inRound_step_open E e u he w hact
        apply ih (step E e u) hes _ ha
        rcases h with ⟨h1, h2, h3⟩ | ⟨h1, h2, h3⟩
        · exact Or.inl ⟨h1, h2.trans a, h3.trans b⟩
        · refine Or.inr ⟨h1, h2, ?_⟩
          rcases h3 with ⟨h3, h4⟩ | ⟨h3, h4⟩
          · exact Or.inl ⟨by rw [h3, a], by rw [h4, b]⟩
          · exact Or.inr ⟨by rw [h3, a], by rw [h4, b]⟩
      · exact absurd ha (inRound_run_inactive E es (step E e u) hes hact)
    · rw [show run E (e :: es) u = run E es (step E e u) from rfl,
        inRound_step_waiting E e u he w t]
      rw [show run E (e :: es) u = run E es (step E e u) from rfl,
        inRound_step_waiting E e u he w t] at ha
      exact ih u hes (Or.inr ⟨w, t, c⟩) ha

theorem handleCorrect_disables (s : Game α) : (handleCorrect s).buttonsDisabled = true := by
  simp [handleCorrect, queueNextRound, disableButtons]

theorem handleWrong_disables (s : Game α) : (handleWrong s).buttonsDisabled = true := by
  unfold handleWrong endGame queueNextRound disableButtons maybeUpdateHighScore
  simp only
  split <;> try split
  all_goals simp

theorem makeChoice_resolves (c : Dir) (u : Game α) (hw : u.isWaitingForNextRound = false) :
    (makeChoice c u).buttonsDisabled = true ∧ (makeChoice c u).timerInterval = none ∧
    (((makeChoice c u).score = u.score + 10 ∧ (makeChoice c u).lives = u.lives) ∨
      ((makeChoice c u).score = u.score ∧ (makeChoice c u).lives = u.lives - 1)) := by
  unfold makeChoice
  split
  · next h =>
    rw [hw] at h
    exact absurd h (by decide)
  · simp only
    split
    · obtain ⟨-, h2, h3, h4, -⟩ := handleCorrect_round { u with timerInterval := none }
      exact ⟨handleCorrect_disables _, h2, Or.inl ⟨h3, h4⟩⟩
    · obtain ⟨h1, h2, h3, -⟩ := handleWrong_round { u with timerInterval := none }
      exact ⟨handleWrong_disables _, h1, Or.inr ⟨h2, h3⟩⟩

theorem isCallback_step [LinearOrderedField α] (E : Env α) (e : Event) (u : Game α)
    (he : e.isCallback = true) :
    (u.buttonsDisabled = true → u.timerInterval = none → step E e u = u) ∧
    (u.isWaitingForNextRound = false → u.gameActive = true →
      ((step E e u).isWaitingForNextRound = false ∧ (step E e u).gameActive = true ∧
        (step E e u).score = u.score ∧ (step E e u).lives = u.lives) ∨
      ((step E e u).buttonsDisabled = true ∧ (step E e u).timerInterval = none ∧
        (((step E e u).score = u.score + 10 ∧ (step E e u).lives = u.lives) ∨
          ((step E e u).score = u.score ∧ (step E e u).lives = u.lives - 1)))) := by
  cases e with
  | choice d => simp [Event.isCallback] at he
  | click d =>
    refine ⟨fun hb _ => by simp [step, click, hb], fun hw ha => ?_⟩
    simp only [step, click]
    split
    · exact Or.inl ⟨hw, ha, rfl, rfl⟩
    · exact Or.inr (makeChoice_resolves d u hw)
  | tick =>
    refine ⟨fun _ ht => by simp [step, timerTick, ht], fun hw ha => ?_⟩
    simp only [step, timerTick]
    split
    · exact Or.inl ⟨hw, ha, rfl, rfl⟩
    · split
      · obtain ⟨h1, h2, h3, -⟩ := handleWrong_round { u with timerInterval := none }
        exact Or.inr ⟨handleWrong_disables _, h1, Or.inr ⟨h2, h3⟩⟩
      · exact Or.inl ⟨hw, ha, rfl, rfl⟩
  | nextRound => simp [Event.isCallback] at he
  | correct => simp [Event.isCallback] at he
  | wrong => simp [Event.isCallback] at he

theorem isCallback_run [LinearOrderedField α] (E : Env α) (s : Game α) (evs : List Event)
    (u : Game α) (hev : ∀ e ∈ evs, e.isCallback = true)
    (hu : (u.isWaitingForNextRound = false ∧ u.gameActive = true ∧
        u.score = s.score ∧ u.lives = s.lives) ∨
      (u.buttonsDisabled = true ∧ u.timerInterval = none ∧
        ((u.score = s.score + 10 ∧ u.lives = s.lives) ∨
          (u.score = s.score ∧ u.lives = s.lives - 1)))) :
    ((run E evs u).score = s.score ∧ (run E evs u).lives = s.lives) ∨
    ((run E evs u).score = s.score + 10 ∧ (run E evs u).lives = s.lives) ∨
    ((run E evs u).score = s.score ∧ (run E evs u).lives = s.lives - 1) := by
  induction evs generalizing u with
  | nil =>
    rcases hu with ⟨-, -, a, b⟩ | ⟨-, -, c⟩
    · exact Or.inl ⟨a, b⟩
    · exact Or.inr c
  | cons e es ih =>
    have he : e.isCallback = true := hev e (List.mem_cons_self e es)
    have hes : ∀ x ∈ es, x.isCallback = true := fun x hx => hev x (List.mem_cons_of_mem e hx)
    obtain ⟨hfix, hopen⟩ := isCallback_step E e u he
    apply ih (step E e u) hes
    rcases hu with ⟨w, g, a, b⟩ | ⟨d, t, c⟩
    · rcases hopen w g with ⟨h1, h2, h3, h4⟩ | ⟨h1, h2, h3⟩
      · exact Or.inl ⟨h1, h2, h3.trans a, h4.trans b⟩
      · refine Or.inr ⟨h1, h2, ?_⟩
        rcases h3 with ⟨h3, h4⟩ | ⟨h3, h4⟩
        · exact Or.inl ⟨by rw [h3, a], by rw [h4, b]⟩
        · exact Or.inr ⟨by rw [h3, a], by rw [h4, b]⟩
    · rw [hfix d t]
      exact Or.inr ⟨d, t, c⟩

theorem makeChoice_eq_correct (c : Dir) (s : Game α) (hw : s.isWaitingForNextRound = false)
    (hc : s.currentDirection = some c) :
    makeChoice c s = handleCorrect { s with timerInterval := none } := by
  unfold makeChoice
  split
  · next h =>
    rw [hw] at h
    exact absurd h (by decide)
  · have hb : (some c == s.currentDirection) = true := by rw [hc]; simp
    simp only [hb, if_true]

theorem makeChoice_eq_wrong (c : Dir) (s : Game α) (hw : s.isWaitingForNextRound = false)
    (hc : s.currentDirection ≠ some c) :
    makeChoice c s = handleWrong { s with timerInterval := none } := by
  unfold makeChoice
  split
  · next h =>
    rw [hw] at h
    exact absurd h (by decide)
  · have hb : (some c == s.currentDirection) = false := by
      rw [beq_eq_false_iff_ne]
      exact fun h => hc h.symm
    simp only [hb, Bool.false_eq_true, if_false]

theorem handleWrong_outcome (s : Game α) :
    (1 < s.lives → (handleWrong s).isWaitingForNextRound = true ∧
      (handleWrong s).gameActive = s.gameActive) ∧
    (s.lives ≤ 1 → (handleWrong s).gameActive = false) := by
  unfold handleWrong endGame queueNextRound disableButtons maybeUpdateHighScore
  simp only
  refine ⟨fun h => ?_, fun h => ?_⟩
  · have : ¬ (s.lives - 1 ≤ 0) := by omega
    simp [this]
  · have : s.lives - 1 ≤ 0 := by omega
    simp only [this, if_true]
    split <;> rfl

theorem inRound_run_waiting [LinearOrderedField α] (E : Env α) (evs : List Event)
    (u : Game α) (hev : ∀ e ∈ evs, e.inRound = true)
    (hw : u.isWaitingForNextRound = true) (ht : u.timerInterval = none) :
    run E evs u = u := by
  induction evs with
  | nil => rfl
  | cons e es ih =>
    show run E es (step E e u) = u
    rw [inRound_step_waiting E e u (hev e (List.mem_cons_self e es)) hw ht]
    exact ih (fun x hx => hev x (List.mem_cons_of_mem e hx))

theorem inRound_run_resolved [LinearOrderedField α] (E : Env α) (evs : List Event)
    (u : Game α) (hev : ∀ e ∈ evs, e.inRound = true) (ht : u.timerInterval = none)
    (hq : u.gameActive = true → u.isWaitingForNextRound = true)
    (ha : (run E evs u).gameActive = true) : run E evs u = u := by
  by_cases hu : u.gameActive = true
  · exact inRound_run_waiting E evs u hev (hq hu) ht
  · exact absurd ha (inRound_run_inactive E evs u hev hu)

/-- C7: at most one resolution per round. While the next round is queued
(`isWaitingForNextRound = true`) every `makeChoice` leaves the whole state
unchanged. A decision on an open round cancels the countdown before it evaluates
the outcome, so the interval callback does nothing afterwards; the decision
itself always resolves the round, with `score += 10` and `lives` untouched when
it matches `currentDirection` and `lives -= 1` and `score` untouched when it
does not, and a click on an enabled button is that decision. Hence, over any
sequence of decisions, clicks and timer ticks of one round that leaves the game
active, the round is either still open with `score` and `lives` untouched, or
resolved with exactly one of `score += 10` and `lives -= 1`; once a decision or
a Timeout has resolved the round, everything that follows in it leaves the state
as that resolution left it; over clicks and timer ticks alone the accounting
also holds for the round that ends the game; and an open round left without a
decision is resolved by its Timeout with `lives -= 1`. -/
theorem one_resolution_per_round [LinearOrderedField α] (E : Env α) (s : Game α) :
    (s.isWaitingForNextRound = true → ∀ c : Dir, makeChoice c s = s) ∧
    (s.isWaitingForNextRound = false → ∀ c : Dir,
      (makeChoice c s).timerInterval = none ∧
      timerTick (makeChoice c s) = makeChoice c s) ∧
    (s.isWaitingForNextRound = false → ∀ evs : List Event,
      (∀ e ∈ evs, e.inRound = true) → (run E evs s).gameActive = true →
      ((run E evs s).isWaitingForNextRound = false ∧ (run E evs s).score = s.score ∧
        (run E evs s).lives = s.lives) ∨
      ((run E evs s).isWaitingForNextRound = true ∧ (run E evs s).timerInterval = none ∧
        (((run E evs s).score = s.score + 10 ∧ (run E evs s).lives = s.lives) ∨
          ((run E evs s).score = s.score ∧ (run E evs s).lives = s.lives - 1)))) ∧
    (s.isWaitingForNextRound = false → s.gameActive = true → ∀ evs : List Event,
      (∀ e ∈ evs, e.isCallback = true) →
      ((run E evs s).score = s.score ∧ (run E evs s).lives = s.lives) ∨
      ((run E evs s).score = s.score + 10 ∧ (run E evs s).lives = s.lives) ∨
      ((run E evs s).score = s.score ∧ (run E evs s).lives = s.lives - 1)) ∧
    (RoundOpen s → (lose Loss.timeout s).score = s.score ∧
      (lose Loss.timeout s).lives = s.lives - 1) ∧
    (s.isWaitingForNextRound = false → ∀ c : Dir,
      (s.currentDirection = some c →
        (makeChoice c s).score = s.score + 10 ∧ (makeChoice c s).lives = s.lives ∧
        (makeChoice c s).isWaitingForNextRound = true ∧
        (makeChoice c s).gameActive = s.gameActive) ∧
      (s.currentDirection ≠ some c →
        (makeChoice c s).score = s.score ∧ (makeChoice c s).lives = s.lives - 1 ∧
        (1 < s.lives → (makeChoice c s).isWaitingForNextRound = true ∧
          (makeChoice c s).gameActive = s.gameActive) ∧
        (s.lives ≤ 1 → (makeChoice c s).gameActive = false))) ∧
    (s.buttonsDisabled = false → ∀ c : Dir, click c s = makeChoice c s) ∧
    (s.isWaitingForNextRound = false → ∀ (c : Dir) (evs : List Event),
      (∀ e ∈ evs, e.inRound = true) →
      (run E (Event.choice c :: evs) s).gameActive = true →
      run E (Event.choice c :: evs) s = makeChoice c s) ∧
    (RoundOpen s → ∀ (w : Loss) (evs : List Event), (∀ e ∈ evs, e.inRound = true) →
      (lose w s).score = s.score ∧ (lose w s).lives = s.lives - 1 ∧
      ((run E evs (lose w s)).gameActive = true → run E evs (lose w s) = lose w s)) := by
  refine ⟨?_, ?_, ?_, ?_, ?_, ?_, ?_, ?_, ?_⟩
  · intro hw c
    simp [makeChoice, hw]
  · intro hw c
    have ht := (makeChoice_round c s hw).1
    exact ⟨ht, by simp [timerTick, ht]⟩
  · intro hw evs hev ha
    exact inRound_run E s evs s hev (Or.inl ⟨hw, rfl, rfl⟩) ha
  · intro hw ha evs hev
    exact isCallback_run E s evs s hev (Or.inl ⟨hw, ha, rfl, rfl⟩)
  · intro ho
    rw [lose_eq Loss.timeout s ho]
    obtain ⟨-, h2, h3, -⟩ := handleWrong_round { s with timerInterval := none }
    exact ⟨h2, h3⟩
  · intro hw c
    refine ⟨fun hc => ?_, fun hc => ?_⟩
    · rw [makeChoice_eq_correct c s hw hc]
      obtain ⟨h1, -, h3, h4, h5⟩ := handleCorrect_round { s with timerInterval := none }
      exact ⟨h3, h4, h1, h5⟩
    · rw [makeChoice_eq_wrong c s hw hc]
      obtain ⟨-, h2, h3, -⟩ := handleWrong_round { s with timerInterval := none }
      obtain ⟨o1, o2⟩ := handleWrong_outcome { s with timerInterval := none }
      exact ⟨h2, h3, o1, o2⟩
  · intro hb c
    simp [click, hb]
  · intro hw c evs hev ha
    obtain ⟨ht, hq⟩ := makeChoice_round c s hw
    exact inRound_run_resolved E evs (makeChoice c s) hev ht (fun h => (hq h).2.1) ha
  · intro ho w evs hev
    have hl := lose_eq w s ho
    obtain ⟨h1, h2, h3, h4⟩ := handleWrong_round { s with timerInterval := none }
    refine ⟨by rw [hl]; exact h2, by rw [hl]; exact h3, ?_⟩
    rw [hl]
    intro ha
    exact inRound_run_resolved E evs _ hev h1 (fun h => (h4 h).2) ha

/-- C7 at concrete inputs: on the round in progress (answer `'up'`), the decision
`'up'` followed by a timer tick, the decision `'down'` and a click adds 10 to the
score exactly once and takes no life; the decision `'down'` instead takes one
life and leaves the score; a second decision and a tick after the first change
nothing. -/
theorem one_resolution_per_round_witness :
    makeChoice Dir.down (makeChoice Dir.up sampleRound) = makeChoice Dir.up sampleRound ∧
    timerTick (makeChoice Dir.up sampleRound) = makeChoice Dir.up sampleRound ∧
    (run sampleEnv [Event.choice Dir.up, Event.tick, Event.choice Dir.down, Event.click Dir.up]
      sampleRound).score = 10 ∧
    (run sampleEnv [Event.choice Dir.up, Event.tick, Event.choice Dir.down, Event.click Dir.up]
      sampleRound).lives = 3 ∧
    (lose Loss.timeout sampleRound).lives = 2 ∧
    (makeChoice Dir.up sampleRound).score = 10 ∧
    (makeChoice Dir.down sampleRound).lives = 2 ∧
    (makeChoice Dir.down sampleRound).score = 0 ∧
    (makeChoice Dir.down sampleRound).isWaitingForNextRound = true ∧
    run sampleEnv [Event.choice Dir.down, Event.tick, Event.choice Dir.up, Event.click Dir.up]
      sampleRound = makeChoice Dir.down sampleRound := by
  have h3 := (one_resolution_per_round sampleEnv sampleRound).2.2.1 (by decide)
    [Event.choice Dir.up, Event.tick, Event.choice Dir.down, Event.click Dir.up]
    (by decide) (by decide)
  have hup := ((one_resolution_per_round sampleEnv sampleRound).2.2.2.2.2.1
    (by decide) Dir.up).1 (by decide)
  have hdown := ((one_resolution_per_round sampleEnv sampleRound).2.2.2.2.2.1
    (by decide) Dir.down).2 (by decide)
  refine ⟨(one_resolution_per_round sampleEnv (makeChoice Dir.up sampleRound)).1
      (by decide) Dir.down,
    ((one_resolution_per_round sampleEnv sampleRound).2.1 (by decide) Dir.up).2, ?_, ?_,
    ((one_resolution_per_round sampleEnv sampleRound).2.2.2.2.1
      ⟨by decide, by decide, by decide, by decide, by decide, by decide⟩).2,
    hup.1, hdown.2.1, hdown.1, (hdown.2.2.1 (by decide)).1,
    (one_resolution_per_round sampleEnv sampleRound).2.2.2.2.2.2.2.1 (by decide) Dir.down
      [Event.tick, Event.choice Dir.up, Event.click Dir.up] (by decide) (by decide)⟩
  · rcases h3 with ⟨h, -, -⟩ | ⟨-, -, ⟨h, -⟩ | ⟨h, -⟩⟩
    · exact absurd h (by decide)
    · exact h
    · exact absurd h (by decide)
  · rcases h3 with ⟨h, -, -⟩ | ⟨-, -, ⟨-, h⟩ | ⟨-, h⟩⟩
    · exact absurd h (by decide)
    · exact h
    · exact absurd h (by decide)

end TradeOrFade
